import Mathlib

set_option maxHeartbeats 1000000

set_option maxRecDepth 8000

/-!
Shallow embedding of the instanced draw-batch aggregator (`InstancedBuffer`
from the render pipeline).  GPU objects are modelled by natural-number
identities, byte buffers by lists of bytes, and the device's effectful calls
(buffer creation, resize, update recording, resource release) by explicit
data in the state or in returned values.
-/

def INITIAL_CAPACITY : Nat := 32

def MAX_CAPACITY : Nat := 1024

structure GFXAttribute where
  name : String
  format : Nat
  isNormalized : Bool
  stream : Nat
  isInstanced : Bool
deriving DecidableEq

structure GFXBuffer where
  id : Nat
  size : Nat
  stride : Nat
deriving DecidableEq

structure GFXInputAssembler where
  id : Nat
  attributes : List GFXAttribute
  vertexBuffers : List Nat
  indexBuffer : Nat
  instanceCount : Nat
deriving DecidableEq

structure IInstancedAttributeBlock where
  buffer : List Nat
  attributes : List GFXAttribute
deriving DecidableEq

/-- A render submission: its geometry source (`inputAssembler`), the texture
bound at the lightmap slot of its descriptor set, the per-pass shader handles
of its sub-model pool entry, and its descriptor-set handle. -/
structure SubModel where
  inputAssembler : GFXInputAssembler
  lightingMap : Nat
  shaders : List Nat
  hDescriptorSet : Nat
deriving DecidableEq

structure IInstancedItem where
  count : Nat
  capacity : Nat
  vb : GFXBuffer
  data : List Nat
  ia : GFXInputAssembler
  stride : Nat
  hShader : Nat
  hDescriptorSet : Nat
  lightingMap : Nat
deriving DecidableEq

structure InstancedBuffer where
  instances : List IInstancedItem
  hPass : Nat
  hasPendingModels : Bool
  dynamicOffsets : List Nat
  nextId : Nat
deriving DecidableEq

/-- A freshly constructed aggregator (the constructor). -/
def InstancedBuffer.init (hPass : Nat) : InstancedBuffer :=
  { instances := [], hPass := hPass, hasPendingModels := false,
    dynamicOffsets := [], nextId := 0 }

/-- `dest.set(src, offset)` on a typed array: overwrite `src.length` bytes of
`dest` starting at `offset`. -/
def setBytes (dest src : List Nat) (offset : Nat) : List Nat :=
  dest.take offset ++ (src ++ dest.drop (offset + src.length))

/-- The capacity-doubling reallocation step of `merge`: when the group is
full, double `capacity`, move `data` into a fresh zeroed buffer of the new
size, and resize the GPU vertex buffer in place. -/
def grown (inst : IInstancedItem) : IInstancedItem :=
  if inst.capacity ≤ inst.count then
    let newSize := inst.stride * (inst.capacity * 2)
    { inst with
      capacity := inst.capacity * 2,
      data := setBytes (List.replicate newSize 0) inst.data 0,
      vb := { inst.vb with size := newSize } }
  else inst

/-- The in-group append step of `merge`: grow if full, overwrite the group's
shader/descriptor-set handles, copy the payload at offset
`stride * count`, and increment `count`. -/
def appended (inst : IInstancedItem) (hShader hDescriptorSet : Nat)
    (payload : List Nat) : IInstancedItem :=
  let g := grown inst
  { g with
    hShader := hShader,
    hDescriptorSet := hDescriptorSet,
    data := setBytes g.data payload (g.stride * g.count),
    count := g.count + 1 }

/-- Result of the first-fit scan inside `merge`: abort on a stride mismatch,
update the matched group in place, or fall through to group creation. -/
inductive MergeScan where
  | abort
  | matched (items : List IInstancedItem)
  | noneFound
deriving DecidableEq

/-- The first-fit scan of `merge` over the group list, in creation order. -/
def mergeLoop (stride indexBuffer lightingMap hShader hDescriptorSet : Nat)
    (payload : List Nat) : List IInstancedItem → MergeScan
  | [] => .noneFound
  | inst :: rest =>
    let cont :=
      match mergeLoop stride indexBuffer lightingMap hShader hDescriptorSet payload rest with
      | .abort => MergeScan.abort
      | .matched l => .matched (inst :: l)
      | .noneFound => .noneFound
    if inst.ia.indexBuffer ≠ indexBuffer ∨ MAX_CAPACITY ≤ inst.count then cont
    else if inst.lightingMap ≠ lightingMap then cont
    else if inst.stride ≠ stride then .abort
    else .matched (appended inst hShader hDescriptorSet payload :: rest)

/-- The fall-through block of `merge`: create a fresh group from the
submission, with a new per-instance vertex buffer and input assembler whose
identities are drawn from the device counter `nextId`. -/
def newInstance (nextId : Nat) (sourceIA : GFXInputAssembler)
    (lightingMap hShader hDescriptorSet : Nat)
    (attrs : IInstancedAttributeBlock) : IInstancedItem :=
  let stride := attrs.buffer.length
  let vb : GFXBuffer :=
    { id := nextId, size := stride * INITIAL_CAPACITY, stride := stride }
  let data := setBytes (List.replicate (stride * INITIAL_CAPACITY) 0) attrs.buffer 0
  let vertexBuffers := sourceIA.vertexBuffers
  let newAttrs := attrs.attributes.map fun attr =>
    ({ name := attr.name, format := attr.format, isNormalized := attr.isNormalized,
       stream := vertexBuffers.length, isInstanced := true } : GFXAttribute)
  let ia : GFXInputAssembler :=
    { id := nextId + 1, attributes := sourceIA.attributes ++ newAttrs,
      vertexBuffers := vertexBuffers ++ [vb.id],
      indexBuffer := sourceIA.indexBuffer, instanceCount := 0 }
  { count := 1, capacity := INITIAL_CAPACITY, vb := vb, data := data,
    ia := ia, stride := stride, hShader := hShader,
    hDescriptorSet := hDescriptorSet, lightingMap := lightingMap }

/-- `InstancedBuffer.merge`.  The trailing shader-implant argument is part of
the signature but never read by the body, as in the source. -/
def InstancedBuffer.merge (buf : InstancedBuffer) (subModel : SubModel)
    (attrs : IInstancedAttributeBlock) (passIdx : Nat)
    (hShaderImplant : Option Nat) : InstancedBuffer :=
  let stride := attrs.buffer.length
  if stride = 0 then buf else
  let sourceIA := subModel.inputAssembler
  let lightingMap := subModel.lightingMap
  let hShader := subModel.shaders.getD passIdx 0
  let hDescriptorSet := subModel.hDescriptorSet
  match mergeLoop stride sourceIA.indexBuffer lightingMap hShader hDescriptorSet
      attrs.buffer buf.instances with
  | .abort => buf
  | .matched l => { buf with instances := l, hasPendingModels := true }
  | .noneFound =>
    { buf with
      instances := buf.instances ++
        [newInstance buf.nextId sourceIA lightingMap hShader hDescriptorSet attrs],
      hasPendingModels := true,
      nextId := buf.nextId + 2 }

/-- `destroy` releases each group's vertex buffer and input assembler and
empties the group list; the second component records the released handle
pairs in order. -/
def InstancedBuffer.destroy (buf : InstancedBuffer) :
    InstancedBuffer × List (Nat × Nat) :=
  ({ buf with instances := [] },
   buf.instances.map fun inst => (inst.vb.id, inst.ia.id))

/-- A recorded `cmdBuff.updateBuffer(vb, data)` call. -/
structure BufferUpdate where
  vb : GFXBuffer
  data : List Nat
deriving DecidableEq

/-- Effect of `uploadBuffers` on one group: skipped when empty, otherwise its
binding's instance count is set and one full-buffer update is recorded. -/
def uploadOne (inst : IInstancedItem) : IInstancedItem × List BufferUpdate :=
  if inst.count = 0 then (inst, [])
  else ({ inst with ia := { inst.ia with instanceCount := inst.count } },
        [{ vb := inst.vb, data := inst.data }])

/-- `uploadBuffers`: the new aggregator state plus the list of buffer updates
recorded into the command buffer, in group order. -/
def InstancedBuffer.uploadBuffers (buf : InstancedBuffer) :
    InstancedBuffer × List BufferUpdate :=
  ({ buf with instances := buf.instances.map fun inst => (uploadOne inst).fst },
   (buf.instances.map fun inst => (uploadOne inst).snd).flatten)

/-- `clear`: zero every group's count and drop the dirty flag. -/
def InstancedBuffer.clear (buf : InstancedBuffer) : InstancedBuffer :=
  { buf with
    instances := buf.instances.map fun inst => { inst with count := 0 },
    hasPendingModels := false }

/-- Merging a whole sequence of submissions that share one sub-model and pass
index, in order. -/
def mergeAll (buf : InstancedBuffer) (subModel : SubModel) (passIdx : Nat)
    (blocks : List IInstancedAttributeBlock) : InstancedBuffer :=
  blocks.foldl (fun b a => b.merge subModel a passIdx none) buf

/-- Merging a sequence of submissions in order, where every submission
carries its own sub-model (shader handles, descriptor set, geometry source)
and its own attribute block. -/
def mergeAllSubs (buf : InstancedBuffer) (passIdx : Nat)
    (subs : List (SubModel × IInstancedAttributeBlock)) : InstancedBuffer :=
  subs.foldl (fun b sa => b.merge sa.fst sa.snd passIdx none) buf

/-- `data[i*stride : (i+1)*stride]`. -/
def byteSlice (d : List Nat) (i s : Nat) : List Nat := (d.drop (i * s)).take s

/-- The per-group structural invariant of the aggregator. -/
def itemInv (g : IInstancedItem) : Prop :=
  g.count ≤ g.capacity ∧ (∃ m, g.capacity = INITIAL_CAPACITY * 2 ^ m) ∧
  g.capacity ≤ MAX_CAPACITY ∧ g.data.length = g.stride * g.capacity

def bufInv (buf : InstancedBuffer) : Prop := ∀ g ∈ buf.instances, itemInv g

/-- Index of the first group matching the submission on index-buffer
identity, count below the cap, and texture binding — the claim's description
of the scan, written independently of `mergeLoop`. -/
def firstCompat (indexBuffer lightingMap : Nat) : List IInstancedItem → Option Nat
  | [] => none
  | g :: rest =>
    if g.ia.indexBuffer = indexBuffer ∧ g.count < MAX_CAPACITY ∧
        g.lightingMap = lightingMap
    then some 0
    else (firstCompat indexBuffer lightingMap rest).map (· + 1)

/-- Total number of instances held across all groups. -/
def totalCount (buf : InstancedBuffer) : Nat :=
  (buf.instances.map fun g => g.count).sum
/-- The condition under which the scan passes over a group. -/
def skips (indexBuffer lightingMap : Nat) (g : IInstancedItem) : Prop :=
  (g.ia.indexBuffer ≠ indexBuffer ∨ MAX_CAPACITY ≤ g.count) ∨
    g.lightingMap ≠ lightingMap

/-- No operation ever changes the stride of a group that persists across it,
stated index-wise over the group list. -/
def stridesPreserved (pre post : InstancedBuffer) : Prop :=
  ∀ i (h1 : i < pre.instances.length) (h2 : i < post.instances.length),
    (post.instances.get ⟨i, h2⟩).stride = (pre.instances.get ⟨i, h1⟩).stride

/-- The index of the group that receives a submission in `merge`: the matched
existing group, the index of the newly created group, or `none` when the
merge is dropped (empty payload or stride-mismatch abort). -/
def mergeDest (buf : InstancedBuffer) (subModel : SubModel)
    (attrs : IInstancedAttributeBlock) : Option Nat :=
  if attrs.buffer.length = 0 then none else
  match firstCompat subModel.inputAssembler.indexBuffer subModel.lightingMap
      buf.instances with
  | none => some buf.instances.length
  | some j =>
    match buf.instances[j]? with
    | none => none
    | some g => if g.stride = attrs.buffer.length then some j else none

/-- Concrete fixtures used by the witness theorems. -/
def wIA : GFXInputAssembler :=
  { id := 100, attributes := [], vertexBuffers := [7], indexBuffer := 5,
    instanceCount := 0 }

def wIA2 : GFXInputAssembler :=
  { id := 101, attributes := [], vertexBuffers := [8], indexBuffer := 6,
    instanceCount := 0 }

def wSub : SubModel :=
  { inputAssembler := wIA, lightingMap := 3, shaders := [11],
    hDescriptorSet := 21 }

def wSub2 : SubModel :=
  { inputAssembler := wIA2, lightingMap := 3, shaders := [12],
    hDescriptorSet := 22 }

def wB1 : IInstancedAttributeBlock := { buffer := [1, 2], attributes := [] }

def wB2 : IInstancedAttributeBlock := { buffer := [9, 8], attributes := [] }

def wBlocks : List IInstancedAttributeBlock :=
  [{ buffer := [1, 2], attributes := [] },
   { buffer := [3, 4], attributes := [] },
   { buffer := [5, 6], attributes := [] }]

/-- A concrete aggregator holding one group, built by a single merge. -/
def wBuf : InstancedBuffer := (InstancedBuffer.init 0).merge wSub wB1 0 none

/-- A submission compatible with `wSub`'s group but carrying different
shader/descriptor-set handles. -/
def wSub3 : SubModel :=
  { inputAssembler := wIA, lightingMap := 3, shaders := [13],
    hDescriptorSet := 23 }

/-! ### Byte-buffer lemmas -/

theorem slot_le {i n s : Nat} (h : i < n) : i * s + s ≤ n * s := by
  have := Nat.mul_le_mul_right s (Nat.succ_le_of_lt h)
  simpa [Nat.succ_mul] using this

theorem setBytes_length {dest src : List Nat} {offset : Nat}
    (h : offset + src.length ≤ dest.length) :
    (setBytes dest src offset).length = dest.length := by
  simp [setBytes]
  omega

theorem setBytes_replicate_zero {src : List Nat} {n : Nat} :
    setBytes (List.replicate n 0) src 0 =
      src ++ List.replicate (n - src.length) 0 := by
  simp [setBytes, List.drop_replicate]

theorem byteSlice_length {d : List Nat} {i s : Nat} (h : i * s + s ≤ d.length) :
    (byteSlice d i s).length = s := by
  simp [byteSlice]
  omega

theorem byteSlice_append {d r : List Nat} {i s : Nat} (h : i * s + s ≤ d.length) :
    byteSlice (d ++ r) i s = byteSlice d i s := by
  unfold byteSlice
  rw [List.drop_append_eq_append_drop, List.take_append_eq_append_take]
  have h2 : s - (d.drop (i * s)).length = 0 := by simp; omega
  rw [h2, List.take_zero, List.append_nil]

theorem byteSlice_setBytes_below {d src : List Nat} {off i s : Nat}
    (hle : i * s + s ≤ off) (hoff : off ≤ d.length) :
    byteSlice (setBytes d src off) i s = byteSlice d i s := by
  unfold byteSlice setBytes
  have ha : (d.take off).length = off := by simp; omega
  rw [List.drop_append_eq_append_drop, List.take_append_eq_append_take, ha]
  have hb : ((d.take off).drop (i * s)).length = off - i * s := by simp; omega
  rw [hb]
  have hc : s - (off - i * s) = 0 := by omega
  rw [hc, List.take_zero, List.append_nil]
  rw [List.drop_take, List.take_take]
  congr 1
  omega

theorem byteSlice_setBytes_at {d src : List Nat} {off k s : Nat}
    (hlen : src.length = s) (hoff : off = k * s) (h : off + s ≤ d.length) :
    byteSlice (setBytes d src off) k s = src := by
  subst hoff
  unfold byteSlice setBytes
  have ha : (d.take (k * s)).length = k * s := by simp; omega
  rw [List.drop_append_eq_append_drop, ha, Nat.sub_self, List.drop_zero]
  have hb : (d.take (k * s)).drop (k * s) = [] := by
    apply List.drop_eq_nil_of_le
    simp
  rw [hb, List.nil_append, List.take_append_eq_append_take, hlen, Nat.sub_self,
    List.take_zero, List.append_nil, List.take_of_length_le (le_of_eq hlen)]

/-! ### Facts about the in-group append step -/

theorem appended_count (g : IInstancedItem) (hs hd : Nat) (p : List Nat) :
    (appended g hs hd p).count = g.count + 1 := by
  by_cases h : g.capacity ≤ g.count <;> simp [appended, grown, h]

theorem appended_stride (g : IInstancedItem) (hs hd : Nat) (p : List Nat) :
    (appended g hs hd p).stride = g.stride := by
  by_cases h : g.capacity ≤ g.count <;> simp [appended, grown, h]

theorem appended_ia (g : IInstancedItem) (hs hd : Nat) (p : List Nat) :
    (appended g hs hd p).ia = g.ia := by
  by_cases h : g.capacity ≤ g.count <;> simp [appended, grown, h]

theorem appended_lightingMap (g : IInstancedItem) (hs hd : Nat) (p : List Nat) :
    (appended g hs hd p).lightingMap = g.lightingMap := by
  by_cases h : g.capacity ≤ g.count <;> simp [appended, grown, h]

theorem appended_vb_id (g : IInstancedItem) (hs hd : Nat) (p : List Nat) :
    (appended g hs hd p).vb.id = g.vb.id := by
  by_cases h : g.capacity ≤ g.count <;> simp [appended, grown, h]

theorem appended_hShader (g : IInstancedItem) (hs hd : Nat) (p : List Nat) :
    (appended g hs hd p).hShader = hs := by
  by_cases h : g.capacity ≤ g.count <;> simp [appended, grown, h]

theorem appended_hDescriptorSet (g : IInstancedItem) (hs hd : Nat) (p : List Nat) :
    (appended g hs hd p).hDescriptorSet = hd := by
  by_cases h : g.capacity ≤ g.count <;> simp [appended, grown, h]

theorem appended_capacity (g : IInstancedItem) (hs hd : Nat) (p : List Nat) :
    (appended g hs hd p).capacity =
      if g.capacity ≤ g.count then g.capacity * 2 else g.capacity := by
  by_cases h : g.capacity ≤ g.count <;> simp [appended, grown, h]

theorem appended_data_length (g : IInstancedItem) (hs hd : Nat) (p : List Nat)
    (hp : p.length = g.stride) (h1 : g.count ≤ g.capacity) (hc : 1 ≤ g.capacity)
    (h4 : g.data.length = g.stride * g.capacity) :
    (appended g hs hd p).data.length =
      g.stride * (appended g hs hd p).capacity := by
  rw [appended_capacity]
  by_cases h : g.capacity ≤ g.count
  · have hcnt : g.count = g.capacity := Nat.le_antisymm h1 h
    have hmono : g.stride * g.capacity ≤ g.stride * (g.capacity * 2) := by nlinarith
    have hlen1 : (setBytes (List.replicate (g.stride * (g.capacity * 2)) 0) g.data 0).length
        = g.stride * (g.capacity * 2) := by
      rw [setBytes_length]
      · simp
      · simp [h4]
        exact hmono
    simp only [appended, grown, h, if_pos]
    rw [setBytes_length]
    · exact hlen1
    · rw [hlen1, hp, hcnt]
      nlinarith
  · simp only [appended, grown, h, if_neg, if_false]
    rw [setBytes_length]
    · simpa using h4
    · rw [hp, h4]
      nlinarith [Nat.succ_le_of_lt (Nat.lt_of_not_le h)]

theorem appended_slice_at (g : IInstancedItem) (hs hd : Nat) (p : List Nat)
    (hp : p.length = g.stride) (h1 : g.count ≤ g.capacity) (hc : 1 ≤ g.capacity)
    (h4 : g.data.length = g.stride * g.capacity) :
    byteSlice (appended g hs hd p).data g.count g.stride = p := by
  by_cases h : g.capacity ≤ g.count
  · have hcnt : g.count = g.capacity := Nat.le_antisymm h1 h
    have hmono : g.stride * g.capacity ≤ g.stride * (g.capacity * 2) := by nlinarith
    have hlen1 : (setBytes (List.replicate (g.stride * (g.capacity * 2)) 0) g.data 0).length
        = g.stride * (g.capacity * 2) := by
      rw [setBytes_length]
      · simp
      · simp [h4]
        exact hmono
    simp only [appended, grown, h, if_pos]
    apply byteSlice_setBytes_at hp (Nat.mul_comm _ _)
    rw [hlen1, hcnt]
    nlinarith
  · simp only [appended, grown, h, if_neg, if_false]
    apply byteSlice_setBytes_at hp (Nat.mul_comm _ _)
    rw [h4]
    nlinarith [Nat.succ_le_of_lt (Nat.lt_of_not_le h)]

theorem appended_slice_below (g : IInstancedItem) (hs hd : Nat) (p : List Nat) (i : Nat)
    (hi : i < g.count) (hp : p.length = g.stride) (h1 : g.count ≤ g.capacity)
    (h4 : g.data.length = g.stride * g.capacity) :
    byteSlice (appended g hs hd p).data i g.stride = byteSlice g.data i g.stride := by
  have hle : i * g.stride + g.stride ≤ g.stride * g.count := by
    have := slot_le (s := g.stride) hi
    calc i * g.stride + g.stride ≤ g.count * g.stride := this
      _ = g.stride * g.count := Nat.mul_comm _ _
  have hdat : i * g.stride + g.stride ≤ g.data.length := by
    rw [h4]
    calc i * g.stride + g.stride ≤ g.stride * g.count := hle
      _ ≤ g.stride * g.capacity := Nat.mul_le_mul_left _ h1
  by_cases h : g.capacity ≤ g.count
  · have hmono : g.stride * g.capacity ≤ g.stride * (g.capacity * 2) := by nlinarith
    have hlen1 : (setBytes (List.replicate (g.stride * (g.capacity * 2)) 0) g.data 0).length
        = g.stride * (g.capacity * 2) := by
      rw [setBytes_length]
      · simp
      · simp [h4]
        exact hmono
    have hoff : g.stride * g.count ≤
        (setBytes (List.replicate (g.stride * (g.capacity * 2)) 0) g.data 0).length := by
      rw [hlen1]
      have hcnt : g.count = g.capacity := Nat.le_antisymm h1 h
      rw [hcnt]
      exact hmono
    simp only [appended, grown, h, if_pos]
    rw [byteSlice_setBytes_below hle hoff, setBytes_replicate_zero,
      byteSlice_append hdat]
  · have hoff2 : g.stride * g.count ≤ g.data.length := by
      rw [h4]
      exact Nat.mul_le_mul_left _ h1
    simp only [appended, grown, h, if_neg, if_false]
    exact byteSlice_setBytes_below hle hoff2

theorem appended_cap_pow (g : IInstancedItem) (hs hd : Nat) (p : List Nat)
    (h2 : ∃ m, g.capacity = INITIAL_CAPACITY * 2 ^ m) :
    ∃ m, (appended g hs hd p).capacity = INITIAL_CAPACITY * 2 ^ m := by
  obtain ⟨m, hm⟩ := h2
  rw [appended_capacity]
  by_cases h : g.capacity ≤ g.count
  · exact ⟨m + 1, by rw [if_pos h, hm]; ring⟩
  · exact ⟨m, by rw [if_neg h, hm]⟩

theorem appended_cap_le_max (g : IInstancedItem) (hs hd : Nat) (p : List Nat)
    (h2 : ∃ m, g.capacity = INITIAL_CAPACITY * 2 ^ m)
    (h3 : g.capacity ≤ MAX_CAPACITY) (hcnt : g.count < MAX_CAPACITY) :
    (appended g hs hd p).capacity ≤ MAX_CAPACITY := by
  obtain ⟨m, hm⟩ := h2
  rw [appended_capacity]
  by_cases h : g.capacity ≤ g.count
  · have hlt : g.capacity < 1024 := by
      have := Nat.lt_of_le_of_lt h hcnt
      simpa [MAX_CAPACITY] using this
    simp only [INITIAL_CAPACITY] at hm
    have hm5 : m < 5 := by
      by_contra hcon
      push_neg at hcon
      have h32 : 32 ≤ 2 ^ m := by
        calc (32 : Nat) = 2 ^ 5 := by norm_num
          _ ≤ 2 ^ m := Nat.pow_le_pow_right (by norm_num) hcon
      omega
    have h16 : (2 : Nat) ^ m ≤ 16 := by
      calc (2 : Nat) ^ m ≤ 2 ^ 4 := Nat.pow_le_pow_right (by norm_num) (by omega)
        _ = 16 := by norm_num
    rw [if_pos h, hm]
    simp only [MAX_CAPACITY]
    omega
  · rw [if_neg h]
    exact h3

theorem appended_count_le_capacity (g : IInstancedItem) (hs hd : Nat) (p : List Nat)
    (h1 : g.count ≤ g.capacity) (hc : 1 ≤ g.capacity) :
    (appended g hs hd p).count ≤ (appended g hs hd p).capacity := by
  rw [appended_capacity, appended_count]
  by_cases h : g.capacity ≤ g.count
  · rw [if_pos h]
    omega
  · rw [if_neg h]
    omega

theorem appended_cap_tight (g : IInstancedItem) (hs hd : Nat) (p : List Nat)
    (h1 : g.count ≤ g.capacity)
    (ht : g.capacity = INITIAL_CAPACITY ∨ g.capacity ≤ 2 * g.count) :
    (appended g hs hd p).capacity = INITIAL_CAPACITY ∨
      (appended g hs hd p).capacity ≤ 2 * (appended g hs hd p).count := by
  rw [appended_capacity, appended_count]
  by_cases h : g.capacity ≤ g.count
  · right
    rw [if_pos h]
    omega
  · rw [if_neg h]
    rcases ht with ht | ht
    · left
      exact ht
    · right
      omega

theorem cap_pos {c : Nat} (h2 : ∃ m, c = INITIAL_CAPACITY * 2 ^ m) : 1 ≤ c := by
  obtain ⟨m, hm⟩ := h2
  have : 0 < (2 : Nat) ^ m := pow_pos (by norm_num) m
  simp only [INITIAL_CAPACITY] at hm
  omega

theorem itemInv_appended (g : IInstancedItem) (hs hd : Nat) (p : List Nat)
    (hp : p.length = g.stride) (hinv : itemInv g) (hcnt : g.count < MAX_CAPACITY) :
    itemInv (appended g hs hd p) := by
  obtain ⟨h1, h2, h3, h4⟩ := hinv
  have hc : 1 ≤ g.capacity := cap_pos h2
  refine ⟨appended_count_le_capacity g hs hd p h1 hc, appended_cap_pow g hs hd p h2,
    appended_cap_le_max g hs hd p h2 h3 hcnt, ?_⟩
  rw [appended_data_length g hs hd p hp h1 hc h4, appended_stride]

/-! ### Characterizing the first-fit scan -/

theorem not_skips_iff (ib lm : Nat) (g : IInstancedItem) :
    ¬ skips ib lm g ↔
      g.ia.indexBuffer = ib ∧ g.count < MAX_CAPACITY ∧ g.lightingMap = lm := by
  unfold skips
  push_neg
  tauto

theorem skips_of_not (ib lm : Nat) (g : IInstancedItem)
    (h : ¬(g.ia.indexBuffer = ib ∧ g.count < MAX_CAPACITY ∧ g.lightingMap = lm)) :
    skips ib lm g := by
  by_contra hcon
  exact h ((not_skips_iff ib lm g).mp hcon)

theorem firstCompat_none_iff (ib lm : Nat) (l : List IInstancedItem) :
    firstCompat ib lm l = none ↔ ∀ g ∈ l, skips ib lm g := by
  induction l with
  | nil => simp [firstCompat]
  | cons g rest ih =>
    by_cases hg : g.ia.indexBuffer = ib ∧ g.count < MAX_CAPACITY ∧ g.lightingMap = lm
    · simp only [firstCompat, if_pos hg]
      constructor
      · intro h
        exact absurd h (by simp)
      · intro h
        exact absurd (h g (by simp)) ((not_skips_iff ib lm g).mpr hg)
    · simp only [firstCompat, if_neg hg]
      constructor
      · intro h
        have hnone : firstCompat ib lm rest = none := by
          cases hfc : firstCompat ib lm rest with
          | none => rfl
          | some j =>
            rw [hfc] at h
            simp at h
        intro g' hg'
        rcases List.mem_cons.mp hg' with rfl | hmem
        · exact skips_of_not ib lm g' hg
        · exact (ih.mp hnone) g' hmem
      · intro h
        have hnone : firstCompat ib lm rest = none :=
          ih.mpr fun g' hm => h g' (by simp [hm])
        rw [hnone]
        rfl

theorem firstCompat_some_spec (ib lm : Nat) (l : List IInstancedItem) (j : Nat)
    (h : firstCompat ib lm l = some j) :
    ∃ hj : j < l.length,
      (l.get ⟨j, hj⟩).ia.indexBuffer = ib ∧
      (l.get ⟨j, hj⟩).count < MAX_CAPACITY ∧
      (l.get ⟨j, hj⟩).lightingMap = lm := by
  induction l generalizing j with
  | nil => simp [firstCompat] at h
  | cons g rest ih =>
    by_cases hg : g.ia.indexBuffer = ib ∧ g.count < MAX_CAPACITY ∧ g.lightingMap = lm
    · simp only [firstCompat, if_pos hg] at h
      cases h
      exact ⟨by simp, hg.1, hg.2.1, hg.2.2⟩
    · simp only [firstCompat, if_neg hg] at h
      cases hfc : firstCompat ib lm rest with
      | none =>
        rw [hfc] at h
        simp at h
      | some j' =>
        rw [hfc] at h
        simp at h
        subst h
        obtain ⟨hj', h1, h2, h3⟩ := ih j' hfc
        exact ⟨by simpa using Nat.succ_lt_succ hj', by simpa using h1,
          by simpa using h2, by simpa using h3⟩

theorem mergeLoop_of_none (stride ib lm hs hd : Nat) (p : List Nat)
    (l : List IInstancedItem) (h : firstCompat ib lm l = none) :
    mergeLoop stride ib lm hs hd p l = .noneFound := by
  induction l with
  | nil => rfl
  | cons g rest ih =>
    by_cases hg : g.ia.indexBuffer = ib ∧ g.count < MAX_CAPACITY ∧ g.lightingMap = lm
    · exact absurd h (by simp [firstCompat, if_pos hg])
    · simp only [firstCompat, if_neg hg] at h
      have hrest : firstCompat ib lm rest = none := by
        cases hfc : firstCompat ib lm rest with
        | none => rfl
        | some j =>
          rw [hfc] at h
          simp at h
      have ihr := ih hrest
      have hsk : (g.ia.indexBuffer ≠ ib ∨ MAX_CAPACITY ≤ g.count) ∨
          g.lightingMap ≠ lm := skips_of_not ib lm g hg
      rcases hsk with h1 | h2
      · simp only [mergeLoop, ihr, if_pos h1]
      · by_cases h1 : g.ia.indexBuffer ≠ ib ∨ MAX_CAPACITY ≤ g.count
        · simp only [mergeLoop, ihr, if_pos h1]
        · simp only [mergeLoop, ihr, if_neg h1, if_pos h2]

theorem mergeLoop_of_some_ne (stride ib lm hs hd : Nat) (p : List Nat)
    (l : List IInstancedItem) (j : Nat) (hj : j < l.length)
    (h : firstCompat ib lm l = some j)
    (hstride : (l.get ⟨j, hj⟩).stride ≠ stride) :
    mergeLoop stride ib lm hs hd p l = .abort := by
  induction l generalizing j with
  | nil => simp [firstCompat] at h
  | cons g rest ih =>
    by_cases hg : g.ia.indexBuffer = ib ∧ g.count < MAX_CAPACITY ∧ g.lightingMap = lm
    · simp only [firstCompat, if_pos hg] at h
      cases h
      have hc1 : ¬(g.ia.indexBuffer ≠ ib ∨ MAX_CAPACITY ≤ g.count) := by
        push_neg
        exact ⟨hg.1, hg.2.1⟩
      have hc2 : ¬(g.lightingMap ≠ lm) := not_not_intro hg.2.2
      simp only [List.get] at hstride
      simp only [mergeLoop, if_neg hc1, if_neg hc2, if_pos hstride]
    · simp only [firstCompat, if_neg hg] at h
      cases hfc : firstCompat ib lm rest with
      | none =>
        rw [hfc] at h
        simp at h
      | some j' =>
        rw [hfc] at h
        simp at h
        subst h
        have hj' : j' < rest.length := by simpa using Nat.lt_of_succ_lt_succ hj
        have hstr' : (rest.get ⟨j', hj'⟩).stride ≠ stride := by
          simpa using hstride
        have ihr := ih j' hj' hfc hstr'
        have hsk : (g.ia.indexBuffer ≠ ib ∨ MAX_CAPACITY ≤ g.count) ∨
            g.lightingMap ≠ lm := skips_of_not ib lm g hg
        rcases hsk with h1 | h2
        · simp only [mergeLoop, ihr, if_pos h1]
        · by_cases h1 : g.ia.indexBuffer ≠ ib ∨ MAX_CAPACITY ≤ g.count
          · simp only [mergeLoop, ihr, if_pos h1]
          · simp only [mergeLoop, ihr, if_neg h1, if_pos h2]

theorem mergeLoop_of_some_eq (stride ib lm hs hd : Nat) (p : List Nat)
    (l : List IInstancedItem) (j : Nat) (hj : j < l.length)
    (h : firstCompat ib lm l = some j)
    (hstride : (l.get ⟨j, hj⟩).stride = stride) :
    mergeLoop stride ib lm hs hd p l =
      .matched (l.set j (appended (l.get ⟨j, hj⟩) hs hd p)) := by
  induction l generalizing j with
  | nil => simp [firstCompat] at h
  | cons g rest ih =>
    by_cases hg : g.ia.indexBuffer = ib ∧ g.count < MAX_CAPACITY ∧ g.lightingMap = lm
    · simp only [firstCompat, if_pos hg] at h
      cases h
      have hc1 : ¬(g.ia.indexBuffer ≠ ib ∨ MAX_CAPACITY ≤ g.count) := by
        push_neg
        exact ⟨hg.1, hg.2.1⟩
      have hc2 : ¬(g.lightingMap ≠ lm) := not_not_intro hg.2.2
      have hc3 : ¬(g.stride ≠ stride) := by
        simp only [List.get] at hstride
        exact not_not_intro hstride
      simp only [mergeLoop, if_neg hc1, if_neg hc2, if_neg hc3, List.get,
        List.set_cons_zero]
    · simp only [firstCompat, if_neg hg] at h
      cases hfc : firstCompat ib lm rest with
      | none =>
        rw [hfc] at h
        simp at h
      | some j' =>
        rw [hfc] at h
        simp at h
        subst h
        have hj' : j' < rest.length := by simpa using Nat.lt_of_succ_lt_succ hj
        have hstr' : (rest.get ⟨j', hj'⟩).stride = stride := by
          simpa using hstride
        have ihr := ih j' hj' hfc hstr'
        have hget : (g :: rest).get ⟨j' + 1, hj⟩ = rest.get ⟨j', hj'⟩ := by simp
        have hsk : (g.ia.indexBuffer ≠ ib ∨ MAX_CAPACITY ≤ g.count) ∨
            g.lightingMap ≠ lm := skips_of_not ib lm g hg
        rw [hget, List.set_cons_succ]
        rcases hsk with h1 | h2
        · simp only [mergeLoop, ihr, if_pos h1]
        · by_cases h1 : g.ia.indexBuffer ≠ ib ∨ MAX_CAPACITY ≤ g.count
          · simp only [mergeLoop, ihr, if_pos h1]
          · simp only [mergeLoop, ihr, if_neg h1, if_pos h2]

theorem mergeLoop_matched_sum (stride ib lm hs hd : Nat) (p : List Nat)
    (l l' : List IInstancedItem)
    (h : mergeLoop stride ib lm hs hd p l = .matched l') :
    (l'.map fun g => g.count).sum = ((l.map fun g => g.count).sum) + 1 := by
  induction l generalizing l' with
  | nil => simp [mergeLoop] at h
  | cons g rest ih =>
    by_cases h1 : g.ia.indexBuffer ≠ ib ∨ MAX_CAPACITY ≤ g.count
    · simp only [mergeLoop, if_pos h1] at h
      cases hrec : mergeLoop stride ib lm hs hd p rest with
      | abort => rw [hrec] at h; exact absurd h (by simp)
      | noneFound => rw [hrec] at h; exact absurd h (by simp)
      | matched l'' =>
        rw [hrec] at h
        simp at h
        subst h
        simp [ih l'' hrec]
        ring
    · by_cases h2 : g.lightingMap ≠ lm
      · simp only [mergeLoop, if_neg h1, if_pos h2] at h
        cases hrec : mergeLoop stride ib lm hs hd p rest with
        | abort => rw [hrec] at h; exact absurd h (by simp)
        | noneFound => rw [hrec] at h; exact absurd h (by simp)
        | matched l'' =>
          rw [hrec] at h
          simp at h
          subst h
          simp [ih l'' hrec]
          ring
      · by_cases h3 : g.stride ≠ stride
        · simp only [mergeLoop, if_neg h1, if_neg h2, if_pos h3] at h
          exact absurd h (by simp)
        · simp only [mergeLoop, if_neg h1, if_neg h2, if_neg h3] at h
          simp at h
          subst h
          simp [appended_count]
          ring

/-! ### The three outcomes of merge -/

theorem merge_zero (buf : InstancedBuffer) (s : SubModel)
    (a : IInstancedAttributeBlock) (pI : Nat) (imp : Option Nat)
    (h : a.buffer.length = 0) : buf.merge s a pI imp = buf := by
  simp [InstancedBuffer.merge, h]

theorem merge_none (buf : InstancedBuffer) (s : SubModel)
    (a : IInstancedAttributeBlock) (pI : Nat) (imp : Option Nat)
    (h0 : ¬ a.buffer.length = 0)
    (hfc : firstCompat s.inputAssembler.indexBuffer s.lightingMap buf.instances = none) :
    buf.merge s a pI imp =
      { buf with
        instances := buf.instances ++
          [newInstance buf.nextId s.inputAssembler s.lightingMap
            (s.shaders.getD pI 0) s.hDescriptorSet a],
        hasPendingModels := true,
        nextId := buf.nextId + 2 } := by
  simp only [InstancedBuffer.merge, if_neg h0,
    mergeLoop_of_none _ _ _ _ _ _ _ hfc]

theorem merge_abort (buf : InstancedBuffer) (s : SubModel)
    (a : IInstancedAttributeBlock) (pI : Nat) (imp : Option Nat)
    (h0 : ¬ a.buffer.length = 0) (j : Nat) (hj : j < buf.instances.length)
    (hfc : firstCompat s.inputAssembler.indexBuffer s.lightingMap buf.instances = some j)
    (hstr : (buf.instances.get ⟨j, hj⟩).stride ≠ a.buffer.length) :
    buf.merge s a pI imp = buf := by
  simp only [InstancedBuffer.merge, if_neg h0,
    mergeLoop_of_some_ne _ _ _ _ _ _ _ j hj hfc hstr]

theorem merge_matched (buf : InstancedBuffer) (s : SubModel)
    (a : IInstancedAttributeBlock) (pI : Nat) (imp : Option Nat)
    (h0 : ¬ a.buffer.length = 0) (j : Nat) (hj : j < buf.instances.length)
    (hfc : firstCompat s.inputAssembler.indexBuffer s.lightingMap buf.instances = some j)
    (hstr : (buf.instances.get ⟨j, hj⟩).stride = a.buffer.length) :
    buf.merge s a pI imp =
      { buf with
        instances := buf.instances.set j
          (appended (buf.instances.get ⟨j, hj⟩)
            (s.shaders.getD pI 0) s.hDescriptorSet a.buffer),
        hasPendingModels := true } := by
  simp only [InstancedBuffer.merge, if_neg h0,
    mergeLoop_of_some_eq _ _ _ _ _ _ _ j hj hfc hstr]

theorem itemInv_newInstance (nid : Nat) (sia : GFXInputAssembler)
    (lm hs hd : Nat) (a : IInstancedAttributeBlock) :
    itemInv (newInstance nid sia lm hs hd a) := by
  refine ⟨by simp [newInstance, INITIAL_CAPACITY], ⟨0, by simp [newInstance]⟩,
    by simp [newInstance, INITIAL_CAPACITY, MAX_CAPACITY], ?_⟩
  show (setBytes (List.replicate (a.buffer.length * INITIAL_CAPACITY) 0)
      a.buffer 0).length = a.buffer.length * INITIAL_CAPACITY
  rw [setBytes_length]
  · simp
  · simp [INITIAL_CAPACITY]
    nlinarith

/-! ### Invariant preservation -/

theorem bufInv_merge (buf : InstancedBuffer) (hinv : bufInv buf) (s : SubModel)
    (a : IInstancedAttributeBlock) (pI : Nat) (imp : Option Nat) :
    bufInv (buf.merge s a pI imp) ∧ stridesPreserved buf (buf.merge s a pI imp) := by
  by_cases h0 : a.buffer.length = 0
  · rw [merge_zero buf s a pI imp h0]
    exact ⟨hinv, fun i h1 h2 => rfl⟩
  · cases hfc : firstCompat s.inputAssembler.indexBuffer s.lightingMap buf.instances with
    | none =>
      rw [merge_none buf s a pI imp h0 hfc]
      constructor
      · intro g hg
        simp only [List.mem_append, List.mem_singleton] at hg
        rcases hg with hg | rfl
        · exact hinv g hg
        · exact itemInv_newInstance _ _ _ _ _ _
      · intro i h1 h2
        simp only [List.get_eq_getElem]
        rw [List.getElem_append_left h1]
    | some j =>
      obtain ⟨hj, hib, hcnt, hlm⟩ := firstCompat_some_spec _ _ _ _ hfc
      by_cases hstr : (buf.instances.get ⟨j, hj⟩).stride = a.buffer.length
      · rw [merge_matched buf s a pI imp h0 j hj hfc hstr]
        constructor
        · intro g hg
          rcases List.mem_or_eq_of_mem_set hg with hmem | rfl
          · exact hinv g hmem
          · exact itemInv_appended _ _ _ _ (by rw [hstr])
              (hinv _ (List.get_mem _ _ _)) hcnt
        · intro i h1 h2
          simp only [List.get_eq_getElem]
          by_cases hij : j = i
          · subst hij
            rw [List.getElem_set_self, appended_stride]
          · rw [List.getElem_set_ne hij]
      · rw [merge_abort buf s a pI imp h0 j hj hfc hstr]
        exact ⟨hinv, fun i h1 h2 => rfl⟩

theorem bufInv_clear (buf : InstancedBuffer) (hinv : bufInv buf) :
    bufInv buf.clear ∧ stridesPreserved buf buf.clear := by
  constructor
  · intro g hg
    simp only [InstancedBuffer.clear, List.mem_map] at hg
    obtain ⟨g', hg', rfl⟩ := hg
    obtain ⟨h1, h2, h3, h4⟩ := hinv g' hg'
    exact ⟨Nat.zero_le _, by simpa using h2, by simpa using h3, by simpa using h4⟩
  · intro i h1 h2
    simp [InstancedBuffer.clear]

theorem uploadOne_fst_fields (g : IInstancedItem) :
    (uploadOne g).fst.count = g.count ∧ (uploadOne g).fst.capacity = g.capacity ∧
    (uploadOne g).fst.stride = g.stride ∧ (uploadOne g).fst.data = g.data := by
  by_cases h : g.count = 0 <;> simp [uploadOne, h]

theorem bufInv_upload (buf : InstancedBuffer) (hinv : bufInv buf) :
    bufInv buf.uploadBuffers.fst ∧ stridesPreserved buf buf.uploadBuffers.fst := by
  constructor
  · intro g hg
    simp only [InstancedBuffer.uploadBuffers, List.mem_map] at hg
    obtain ⟨g', hg', rfl⟩ := hg
    obtain ⟨h1, h2, h3, h4⟩ := hinv g' hg'
    obtain ⟨f1, f2, f3, f4⟩ := uploadOne_fst_fields g'
    exact ⟨by rw [f1, f2]; exact h1, by rw [f2]; exact h2, by rw [f2]; exact h3,
      by rw [f4, f3, f2]; exact h4⟩
  · intro i h1 h2
    simp only [InstancedBuffer.uploadBuffers, List.get_eq_getElem, List.getElem_map]
    exact (uploadOne_fst_fields _).2.2.1

/-- **C2**: every aggregator operation (merge, uploadBuffers, clear, destroy)
preserves, for each group, count ≤ capacity, capacity a power-of-two multiple
of 32 never exceeding 1024, and data.length = stride × capacity; and no group
that persists across the operation ever changes its stride. -/
theorem claim2_operations_preserve_invariants (buf : InstancedBuffer)
    (hinv : bufInv buf) (s : SubModel) (a : IInstancedAttributeBlock)
    (pI : Nat) (imp : Option Nat) :
    (bufInv (buf.merge s a pI imp) ∧ stridesPreserved buf (buf.merge s a pI imp)) ∧
    (bufInv buf.clear ∧ stridesPreserved buf buf.clear) ∧
    (bufInv buf.uploadBuffers.fst ∧ stridesPreserved buf buf.uploadBuffers.fst) ∧
    bufInv buf.destroy.fst :=
  ⟨bufInv_merge buf hinv s a pI imp, bufInv_clear buf hinv, bufInv_upload buf hinv,
   fun g hg => absurd hg (by simp [InstancedBuffer.destroy])⟩

/-! ### Iterated merges sharing one compatibility key -/

theorem mergeAll_append (buf : InstancedBuffer) (s : SubModel) (pI : Nat)
    (bs : List IInstancedAttributeBlock) (b : IInstancedAttributeBlock) :
    mergeAll buf s pI (bs ++ [b]) = (mergeAll buf s pI bs).merge s b pI none := by
  simp [mergeAll]

theorem newInstance_fields (nid : Nat) (sia : GFXInputAssembler) (lm hs hd : Nat)
    (a : IInstancedAttributeBlock) :
    (newInstance nid sia lm hs hd a).count = 1 ∧
    (newInstance nid sia lm hs hd a).capacity = INITIAL_CAPACITY ∧
    (newInstance nid sia lm hs hd a).stride = a.buffer.length ∧
    (newInstance nid sia lm hs hd a).ia.indexBuffer = sia.indexBuffer ∧
    (newInstance nid sia lm hs hd a).lightingMap = lm ∧
    (newInstance nid sia lm hs hd a).hShader = hs ∧
    (newInstance nid sia lm hs hd a).hDescriptorSet = hd := by
  simp [newInstance]

theorem newInstance_data_length (nid : Nat) (sia : GFXInputAssembler)
    (lm hs hd : Nat) (a : IInstancedAttributeBlock) :
    (newInstance nid sia lm hs hd a).data.length =
      a.buffer.length * INITIAL_CAPACITY := by
  show (setBytes (List.replicate (a.buffer.length * INITIAL_CAPACITY) 0)
      a.buffer 0).length = a.buffer.length * INITIAL_CAPACITY
  rw [setBytes_length]
  · simp
  · simp [INITIAL_CAPACITY]
    nlinarith

theorem newInstance_slice0 (nid : Nat) (sia : GFXInputAssembler)
    (lm hs hd : Nat) (a : IInstancedAttributeBlock) :
    byteSlice (newInstance nid sia lm hs hd a).data 0 a.buffer.length =
      a.buffer := by
  show byteSlice (setBytes (List.replicate (a.buffer.length * INITIAL_CAPACITY) 0)
      a.buffer 0) 0 a.buffer.length = a.buffer
  apply byteSlice_setBytes_at rfl (by simp)
  simp [INITIAL_CAPACITY]
  nlinarith

theorem merge_single (buf : InstancedBuffer) (g : IInstancedItem) (s : SubModel)
    (b : IInstancedAttributeBlock) (pI : Nat)
    (hinst : buf.instances = [g])
    (h0 : ¬ b.buffer.length = 0)
    (hib : g.ia.indexBuffer = s.inputAssembler.indexBuffer)
    (hcnt : g.count < MAX_CAPACITY)
    (hlm : g.lightingMap = s.lightingMap)
    (hstr : g.stride = b.buffer.length) :
    buf.merge s b pI none =
      { buf with
        instances := [appended g (s.shaders.getD pI 0) s.hDescriptorSet b.buffer],
        hasPendingModels := true } := by
  have hfc : firstCompat s.inputAssembler.indexBuffer s.lightingMap
      buf.instances = some 0 := by
    rw [hinst]
    simp only [firstCompat]
    rw [if_pos ⟨hib, hcnt, hlm⟩]
  have hj : 0 < buf.instances.length := by
    rw [hinst]
    simp
  have hget : buf.instances.get ⟨0, hj⟩ = g := by
    have := List.get_of_eq hinst ⟨0, hj⟩
    simpa using this
  rw [merge_matched buf s b pI none h0 0 hj hfc (by rw [hget, hstr])]
  rw [hget, hinst]
  rfl

theorem mergeAllSubs_append (buf : InstancedBuffer) (pI : Nat)
    (subs : List (SubModel × IInstancedAttributeBlock))
    (p : SubModel × IInstancedAttributeBlock) :
    mergeAllSubs buf pI (subs ++ [p]) =
      (mergeAllSubs buf pI subs).merge p.fst p.snd pI none := by
  simp [mergeAllSubs]

theorem mergeAllSubs_single (hp0 : Nat) (pI : Nat) (ib lm stride : Nat)
    (subs : List (SubModel × IInstancedAttributeBlock))
    (hsp : 0 < stride)
    (hkey : ∀ p ∈ subs, p.fst.inputAssembler.indexBuffer = ib ∧
      p.fst.lightingMap = lm ∧ p.snd.buffer.length = stride)
    (hn : subs.length ≤ MAX_CAPACITY) (hne : subs ≠ []) :
    ∃ g, (mergeAllSubs (InstancedBuffer.init hp0) pI subs).instances = [g] ∧
      g.count = subs.length ∧ g.stride = stride ∧
      g.ia.indexBuffer = ib ∧ g.lightingMap = lm ∧
      (∃ m, g.capacity = INITIAL_CAPACITY * 2 ^ m) ∧
      g.count ≤ g.capacity ∧ g.capacity ≤ MAX_CAPACITY ∧
      (g.capacity = INITIAL_CAPACITY ∨ g.capacity ≤ 2 * g.count) ∧
      g.data.length = stride * g.capacity ∧
      ∀ i, ∀ hi : i < subs.length,
        byteSlice g.data i stride = ((subs.get ⟨i, hi⟩).snd).buffer := by
  induction subs using List.reverseRecOn with
  | nil => exact absurd rfl hne
  | append_singleton bs p ih =>
    obtain ⟨hibN, hlmN, hblen⟩ := hkey p (by simp)
    have h0 : ¬ p.snd.buffer.length = 0 := by omega
    have hnn : bs.length + 1 ≤ MAX_CAPACITY := by simpa using hn
    rcases eq_or_ne bs [] with rfl | hbs
    · have hm : (InstancedBuffer.init hp0).merge p.fst p.snd pI none =
          { InstancedBuffer.init hp0 with
            instances := [newInstance 0 p.fst.inputAssembler p.fst.lightingMap
              (p.fst.shaders.getD pI 0) p.fst.hDescriptorSet p.snd],
            hasPendingModels := true, nextId := 2 } := by
        rw [merge_none (InstancedBuffer.init hp0) p.fst p.snd pI none h0 rfl]
        rfl
      obtain ⟨f1, f2, f3, f4, f5, _, _⟩ :=
        newInstance_fields 0 p.fst.inputAssembler p.fst.lightingMap
          (p.fst.shaders.getD pI 0) p.fst.hDescriptorSet p.snd
      refine ⟨newInstance 0 p.fst.inputAssembler p.fst.lightingMap
        (p.fst.shaders.getD pI 0) p.fst.hDescriptorSet p.snd,
        ?_, ?_, ?_, ?_, ?_, ?_, ?_, ?_, ?_, ?_, ?_⟩
      · rw [show mergeAllSubs (InstancedBuffer.init hp0) pI ([] ++ [p]) =
          (InstancedBuffer.init hp0).merge p.fst p.snd pI none from by
            simp [mergeAllSubs], hm]
      · simpa using f1
      · rw [f3, hblen]
      · rw [f4]
        exact hibN
      · rw [f5]
        exact hlmN
      · exact ⟨0, by rw [f2]; ring⟩
      · rw [f1, f2]
        simp [INITIAL_CAPACITY]
      · rw [f2]
        simp [INITIAL_CAPACITY, MAX_CAPACITY]
      · exact Or.inl f2
      · rw [newInstance_data_length, f2, hblen]
      · intro i hi
        have hi0 : i = 0 := by simpa using hi
        subst hi0
        have := newInstance_slice0 0 p.fst.inputAssembler p.fst.lightingMap
          (p.fst.shaders.getD pI 0) p.fst.hDescriptorSet p.snd
        rw [hblen] at this
        rw [this]
        simp
    · obtain ⟨g, hinst, hcount, hstride, hib, hlm, hpow, hle, hmax, htight,
        hdlen, hslice⟩ :=
        ih (fun p' hp' => hkey p' (by simp [hp'])) (Nat.le_of_succ_le hnn) hbs
      have hkcnt : g.count < MAX_CAPACITY := by
        rw [hcount]
        omega
      have hc1 : 1 ≤ g.capacity := cap_pos hpow
      have hp : p.snd.buffer.length = g.stride := by rw [hblen, hstride]
      have h4 : g.data.length = g.stride * g.capacity := by
        rw [hdlen, hstride]
      rw [mergeAllSubs_append,
        merge_single _ g p.fst p.snd pI hinst h0 (by rw [hib]; exact hibN.symm)
          hkcnt (by rw [hlm]; exact hlmN.symm) (by rw [hstride, hblen])]
      refine ⟨appended g (p.fst.shaders.getD pI 0) p.fst.hDescriptorSet
        p.snd.buffer, rfl, ?_, ?_, ?_, ?_, ?_, ?_, ?_, ?_, ?_, ?_⟩
      · rw [appended_count, hcount]
        simp
      · rw [appended_stride, hstride]
      · rw [appended_ia]
        exact hib
      · rw [appended_lightingMap]
        exact hlm
      · exact appended_cap_pow _ _ _ _ hpow
      · exact appended_count_le_capacity _ _ _ _ hle hc1
      · exact appended_cap_le_max _ _ _ _ hpow hmax hkcnt
      · exact appended_cap_tight _ _ _ _ hle htight
      · rw [appended_data_length g _ _ p.snd.buffer hp hle hc1 h4, hstride]
      · intro i hi
        have hi2 : i < bs.length + 1 := by simpa using hi
        by_cases hilt : i < bs.length
        · have hslicei := hslice i hilt
          have hA := appended_slice_below g (p.fst.shaders.getD pI 0)
            p.fst.hDescriptorSet p.snd.buffer i (by rw [hcount]; exact hilt)
            hp hle h4
          rw [hstride] at hA
          rw [hA, hslicei]
          simp only [List.get_eq_getElem]
          rw [List.getElem_append_left hilt]
        · have hieq : i = bs.length := by omega
          subst hieq
          have hA := appended_slice_at g (p.fst.shaders.getD pI 0)
            p.fst.hDescriptorSet p.snd.buffer hp hle hc1 h4
          rw [hstride, hcount] at hA
          rw [hA]
          simp only [List.get_eq_getElem]
          rw [List.getElem_concat_length]
          rfl

theorem mergeAll_single (hp0 : Nat) (s : SubModel) (pI : Nat) (stride : Nat)
    (blocks : List IInstancedAttributeBlock)
    (hsp : 0 < stride) (hb : ∀ b ∈ blocks, b.buffer.length = stride)
    (hn : blocks.length ≤ MAX_CAPACITY) (hne : blocks ≠ []) :
    ∃ g, (mergeAll (InstancedBuffer.init hp0) s pI blocks).instances = [g] ∧
      g.count = blocks.length ∧ g.stride = stride ∧
      g.ia.indexBuffer = s.inputAssembler.indexBuffer ∧
      g.lightingMap = s.lightingMap ∧
      (∃ m, g.capacity = INITIAL_CAPACITY * 2 ^ m) ∧
      g.count ≤ g.capacity ∧ g.capacity ≤ MAX_CAPACITY ∧
      (g.capacity = INITIAL_CAPACITY ∨ g.capacity ≤ 2 * g.count) ∧
      g.data.length = stride * g.capacity ∧
      ∀ i, ∀ hi : i < blocks.length,
        byteSlice g.data i stride = (blocks.get ⟨i, hi⟩).buffer := by
  have hmap : mergeAll (InstancedBuffer.init hp0) s pI blocks =
      mergeAllSubs (InstancedBuffer.init hp0) pI
        (blocks.map fun b => (s, b)) := by
    unfold mergeAll mergeAllSubs
    rw [List.foldl_map]
  obtain ⟨g, h1, h2, h3, h4, h5, h6, h7, h8, h9, h10, h11⟩ :=
    mergeAllSubs_single hp0 pI s.inputAssembler.indexBuffer s.lightingMap
      stride (blocks.map fun b => (s, b)) hsp
      (by
        intro q hq
        obtain ⟨b', hb', rfl⟩ := List.mem_map.mp hq
        exact ⟨rfl, rfl, hb b' hb'⟩)
      (by simpa using hn) (by simpa using hne)
  refine ⟨g, by rw [hmap]; exact h1, by simpa using h2, h3, h4, h5, h6, h7,
    h8, h9, h10, ?_⟩
  intro i hi
  have hi2 : i < (blocks.map fun b => (s, b)).length := by simpa using hi
  have hsl := h11 i hi2
  rw [hsl]
  simp only [List.get_eq_getElem, List.getElem_map]

/-! ### Where a submission lands -/

theorem mergeDest_some_key (buf : InstancedBuffer) (s : SubModel)
    (a : IInstancedAttributeBlock) (pI : Nat) (imp : Option Nat) (j : Nat)
    (hd : mergeDest buf s a = some j) :
    j < (buf.merge s a pI imp).instances.length ∧
    ∀ hj : j < (buf.merge s a pI imp).instances.length,
      ((buf.merge s a pI imp).instances.get ⟨j, hj⟩).ia.indexBuffer =
        s.inputAssembler.indexBuffer ∧
      ((buf.merge s a pI imp).instances.get ⟨j, hj⟩).lightingMap =
        s.lightingMap ∧
      ((buf.merge s a pI imp).instances.get ⟨j, hj⟩).stride =
        a.buffer.length := by
  by_cases h0 : a.buffer.length = 0
  · simp [mergeDest, h0] at hd
  · rw [mergeDest, if_neg h0] at hd
    cases hfc : firstCompat s.inputAssembler.indexBuffer s.lightingMap
        buf.instances with
    | none =>
      rw [hfc] at hd
      simp only [Option.some_inj] at hd
      subst hd
      rw [merge_none buf s a pI imp h0 hfc]
      constructor
      · simp
      · intro hj
        simp only [List.get_eq_getElem]
        rw [List.getElem_concat_length]
        · obtain ⟨_, _, f3, f4, f5, _, _⟩ := newInstance_fields buf.nextId
            s.inputAssembler s.lightingMap (s.shaders.getD pI 0)
            s.hDescriptorSet a
          exact ⟨f4, f5, f3⟩
        · rfl
    | some j' =>
      rw [hfc] at hd
      dsimp only at hd
      obtain ⟨hj', hib, hcnt, hlm⟩ := firstCompat_some_spec _ _ _ _ hfc
      rw [List.getElem?_eq_getElem hj'] at hd
      dsimp only at hd
      simp only [List.get_eq_getElem] at hib hcnt hlm
      by_cases hstr : buf.instances[j'].stride = a.buffer.length
      · rw [if_pos hstr] at hd
        simp only [Option.some_inj] at hd
        subst hd
        rw [merge_matched buf s a pI imp h0 j' hj' hfc
          (by simpa using hstr)]
        constructor
        · simpa using hj'
        · intro hj
          simp only [List.get_eq_getElem]
          rw [List.getElem_set_self]
          rw [appended_ia, appended_lightingMap, appended_stride]
          exact ⟨hib, hlm, hstr⟩
      · rw [if_neg hstr] at hd
        exact absurd hd (by simp)

/-- **C1**: merging a sequence of compatible submissions S₀…Sₙ₋₁ (n up to the
1024 cap) into a fresh aggregator yields a single group whose byte buffer
satisfies data[i*stride : (i+1)*stride] = Sᵢ's payload for every i < count,
across capacity growth. -/
theorem claim1_byte_placement (hp0 : Nat) (s : SubModel) (pI : Nat)
    (stride : Nat) (blocks : List IInstancedAttributeBlock)
    (hsp : 0 < stride) (hb : ∀ b ∈ blocks, b.buffer.length = stride)
    (hn : blocks.length ≤ MAX_CAPACITY) (hne : blocks ≠ []) :
    ∃ g, (mergeAll (InstancedBuffer.init hp0) s pI blocks).instances = [g] ∧
      g.count = blocks.length ∧ g.stride = stride ∧
      g.data.length = stride * g.capacity ∧
      ∀ i, ∀ hi : i < blocks.length,
        byteSlice g.data i stride = (blocks.get ⟨i, hi⟩).buffer := by
  obtain ⟨g, h1, h2, h3, _, _, _, _, _, _, h10, h11⟩ :=
    mergeAll_single hp0 s pI stride blocks hsp hb hn hne
  exact ⟨g, h1, h2, h3, h10, h11⟩

/-- **C3**: submissions with different index-buffer identity, texture binding
or stride land in different groups; submissions agreeing on index buffer,
texture binding and stride — while possibly differing in shader handles,
descriptor set and payload bytes — all land in one single group until the
1024 cap, after which a new group is created; merging 1025 compatible
submissions yields exactly two groups with counts 1024 and 1. -/
theorem claim3_partitioning :
    (∀ (buf : InstancedBuffer) (s1 s2 : SubModel)
       (a1 a2 : IInstancedAttributeBlock) (p1 : Nat) (imp1 : Option Nat)
       (j1 j2 : Nat),
       (s1.inputAssembler.indexBuffer ≠ s2.inputAssembler.indexBuffer ∨
        s1.lightingMap ≠ s2.lightingMap ∨
        a1.buffer.length ≠ a2.buffer.length) →
       mergeDest buf s1 a1 = some j1 →
       mergeDest (buf.merge s1 a1 p1 imp1) s2 a2 = some j2 →
       j1 ≠ j2) ∧
    (∀ (hp0 pI ib lm stride : Nat)
       (subs : List (SubModel × IInstancedAttributeBlock)),
       0 < stride →
       (∀ p ∈ subs, p.fst.inputAssembler.indexBuffer = ib ∧
         p.fst.lightingMap = lm ∧ p.snd.buffer.length = stride) →
       subs.length ≤ MAX_CAPACITY → subs ≠ [] →
       ∃ g, (mergeAllSubs (InstancedBuffer.init hp0) pI subs).instances =
           [g] ∧
         g.count = subs.length ∧
         ∀ i, ∀ hi : i < subs.length,
           byteSlice g.data i stride = ((subs.get ⟨i, hi⟩).snd).buffer) ∧
    (∀ (hp0 : Nat) (s : SubModel) (pI : Nat) (b : IInstancedAttributeBlock),
       b.buffer ≠ [] →
       ∃ g h, (mergeAll (InstancedBuffer.init hp0) s pI
           (List.replicate 1025 b)).instances = [g, h] ∧
         g.count = 1024 ∧ g.capacity = 1024 ∧ h.count = 1 ∧ h.capacity = 32) := by
  refine ⟨?_, ?_, ?_⟩
  · intro buf s1 s2 a1 a2 p1 imp1 j1 j2 hkey hd1 hd2 heq
    subst heq
    obtain ⟨hlt1, hprops1⟩ := mergeDest_some_key buf s1 a1 p1 imp1 j1 hd1
    obtain ⟨k1, k2, k3⟩ := hprops1 hlt1
    simp only [List.get_eq_getElem] at k1 k2 k3
    by_cases h02 : a2.buffer.length = 0
    · simp [mergeDest, h02] at hd2
    · rw [mergeDest, if_neg h02] at hd2
      cases hfc2 : firstCompat s2.inputAssembler.indexBuffer s2.lightingMap
          (buf.merge s1 a1 p1 imp1).instances with
      | none =>
        rw [hfc2] at hd2
        dsimp only at hd2
        simp only [Option.some_inj] at hd2
        omega
      | some j' =>
        rw [hfc2] at hd2
        dsimp only at hd2
        obtain ⟨hj', hib2, hcnt2, hlm2⟩ := firstCompat_some_spec _ _ _ _ hfc2
        rw [List.getElem?_eq_getElem hj'] at hd2
        dsimp only at hd2
        by_cases hstr2 : (buf.merge s1 a1 p1 imp1).instances[j'].stride =
            a2.buffer.length
        · rw [if_pos hstr2] at hd2
          simp only [Option.some_inj] at hd2
          subst hd2
          simp only [List.get_eq_getElem] at hib2 hlm2
          rcases hkey with hk | hk | hk
          · exact hk (k1.symm.trans hib2)
          · exact hk (k2.symm.trans hlm2)
          · exact hk (k3.symm.trans hstr2)
        · rw [if_neg hstr2] at hd2
          exact absurd hd2 (by simp)
  · intro hp0 pI ib lm stride subs hsp hkey hn hne
    obtain ⟨g, h1, h2, _, _, _, _, _, _, _, _, h11⟩ :=
      mergeAllSubs_single hp0 pI ib lm stride subs hsp hkey hn hne
    exact ⟨g, h1, h2, h11⟩
  · intro hp0 s pI b hbne
    have hlen : 0 < b.buffer.length := List.length_pos.mpr hbne
    have h0 : ¬ b.buffer.length = 0 := by omega
    obtain ⟨g, hinst, hcount, hstride, hib, hlm, hpow, hle, hmax, htight,
      hdlen, hslice⟩ :=
      mergeAll_single hp0 s pI b.buffer.length (List.replicate 1024 b) hlen
        (fun b' hb' => by rw [List.eq_of_mem_replicate hb'])
        (by simp [MAX_CAPACITY]) (by simp)
    have hcnt1024 : g.count = 1024 := by simpa using hcount
    have hcap1024 : g.capacity = 1024 := by
      have hc1 : 1024 ≤ g.capacity := hcnt1024 ▸ hle
      have hc2 : g.capacity ≤ 1024 := by simpa [MAX_CAPACITY] using hmax
      omega
    have hfc : firstCompat s.inputAssembler.indexBuffer s.lightingMap
        (mergeAll (InstancedBuffer.init hp0) s pI
          (List.replicate 1024 b)).instances = none := by
      rw [hinst]
      simp only [firstCompat]
      rw [if_neg]
      · rfl
      · intro hcon
        rw [hcnt1024] at hcon
        exact absurd hcon.2.1 (by simp [MAX_CAPACITY])
    have hm := merge_none (mergeAll (InstancedBuffer.init hp0) s pI
      (List.replicate 1024 b)) s b pI none h0 hfc
    rw [show (1025 : Nat) = 1024 + 1 from rfl, List.replicate_succ',
      mergeAll_append, hm]
    refine ⟨g, newInstance (mergeAll (InstancedBuffer.init hp0) s pI
        (List.replicate 1024 b)).nextId s.inputAssembler s.lightingMap
        (s.shaders.getD pI 0) s.hDescriptorSet b, ?_, hcnt1024, hcap1024, ?_, ?_⟩
    · show (mergeAll (InstancedBuffer.init hp0) s pI
          (List.replicate 1024 b)).instances ++ [_] = _
      rw [hinst]
      rfl
    · exact (newInstance_fields _ _ _ _ _ _).1
    · exact (newInstance_fields _ _ _ _ _ _).2.1

/-! ### When merge is a no-op -/

theorem totalCount_merge (buf : InstancedBuffer) (s : SubModel)
    (a : IInstancedAttributeBlock) (pI : Nat) (imp : Option Nat)
    (h0 : ¬ a.buffer.length = 0)
    (hnoabort : ¬ ∃ j g, firstCompat s.inputAssembler.indexBuffer
        s.lightingMap buf.instances = some j ∧
      buf.instances[j]? = some g ∧ g.stride ≠ a.buffer.length) :
    totalCount (buf.merge s a pI imp) = totalCount buf + 1 := by
  cases hfc : firstCompat s.inputAssembler.indexBuffer s.lightingMap
      buf.instances with
  | none =>
    rw [merge_none buf s a pI imp h0 hfc]
    simp [totalCount]
    exact (newInstance_fields _ _ _ _ _ _).1
  | some j =>
    obtain ⟨hj, _, _, _⟩ := firstCompat_some_spec _ _ _ _ hfc
    by_cases hstr : (buf.instances.get ⟨j, hj⟩).stride = a.buffer.length
    · have hml := mergeLoop_of_some_eq a.buffer.length
        s.inputAssembler.indexBuffer s.lightingMap (s.shaders.getD pI 0)
        s.hDescriptorSet a.buffer buf.instances j hj hfc hstr
      have hsum := mergeLoop_matched_sum _ _ _ _ _ _ _ _ hml
      rw [merge_matched buf s a pI imp h0 j hj hfc hstr]
      exact hsum
    · exact absurd ⟨j, buf.instances.get ⟨j, hj⟩, hfc,
        by rw [List.getElem?_eq_getElem hj]; rfl, hstr⟩ hnoabort

/-- **C4**: merge leaves the aggregator unchanged exactly when the payload is
empty or the first scanned compatible group has a mismatching stride; in
every other case it appends the payload to some group (total count grows by
one and the payload is readable at the tail slot of the receiving group). -/
theorem claim4_noop_iff (buf : InstancedBuffer) (s : SubModel)
    (a : IInstancedAttributeBlock) (pI : Nat) (imp : Option Nat)
    (hinv : bufInv buf) :
    (buf.merge s a pI imp = buf ↔
      (a.buffer.length = 0 ∨
       ∃ j g, firstCompat s.inputAssembler.indexBuffer s.lightingMap
           buf.instances = some j ∧
         buf.instances[j]? = some g ∧ g.stride ≠ a.buffer.length)) ∧
    (¬(a.buffer.length = 0 ∨
       ∃ j g, firstCompat s.inputAssembler.indexBuffer s.lightingMap
           buf.instances = some j ∧
         buf.instances[j]? = some g ∧ g.stride ≠ a.buffer.length) →
      totalCount (buf.merge s a pI imp) = totalCount buf + 1 ∧
      ∃ j, ∃ hj : j < (buf.merge s a pI imp).instances.length,
        0 < ((buf.merge s a pI imp).instances.get ⟨j, hj⟩).count ∧
        byteSlice ((buf.merge s a pI imp).instances.get ⟨j, hj⟩).data
          (((buf.merge s a pI imp).instances.get ⟨j, hj⟩).count - 1)
          a.buffer.length = a.buffer) := by
  constructor
  · constructor
    · intro heq
      by_contra hnoop
      push_neg at hnoop
      have := totalCount_merge buf s a pI imp hnoop.1 (by
        rintro ⟨j, g, hfc, hget, hstr⟩
        exact hstr (hnoop.2 j g hfc hget))
      rw [heq] at this
      omega
    · intro hnoop
      rcases hnoop with h0 | ⟨j, g, hfc, hget, hstr⟩
      · exact merge_zero buf s a pI imp h0
      · by_cases h0 : a.buffer.length = 0
        · exact merge_zero buf s a pI imp h0
        · obtain ⟨hj, _, _, _⟩ := firstCompat_some_spec _ _ _ _ hfc
          rw [List.getElem?_eq_getElem hj] at hget
          simp only [Option.some_inj] at hget
          exact merge_abort buf s a pI imp h0 j hj hfc
            (by simp only [List.get_eq_getElem]; rw [hget]; exact hstr)
  · intro hnoop
    push_neg at hnoop
    obtain ⟨h0, hnoabort⟩ := hnoop
    refine ⟨totalCount_merge buf s a pI imp h0 (by
      intro ⟨j, g, hfc, hget, hstr⟩
      exact hstr (hnoabort j g hfc hget)), ?_⟩
    cases hfc : firstCompat s.inputAssembler.indexBuffer s.lightingMap
        buf.instances with
    | none =>
      rw [merge_none buf s a pI imp h0 hfc]
      refine ⟨buf.instances.length, by simp, ?_⟩
      simp only [List.get_eq_getElem]
      rw [List.getElem_concat_length]
      · obtain ⟨f1, _, _, _, _, _, _⟩ := newInstance_fields buf.nextId
          s.inputAssembler s.lightingMap (s.shaders.getD pI 0)
          s.hDescriptorSet a
        rw [f1]
        refine ⟨by omega, ?_⟩
        show byteSlice (newInstance _ _ _ _ _ _).data 0 a.buffer.length = _
        exact newInstance_slice0 _ _ _ _ _ _
      · rfl
    | some j =>
      obtain ⟨hj, _, hcnt, _⟩ := firstCompat_some_spec _ _ _ _ hfc
      have hstr : (buf.instances.get ⟨j, hj⟩).stride = a.buffer.length := by
        by_contra hne
        exact hne (hnoabort j (buf.instances.get ⟨j, hj⟩) hfc
          (by rw [List.getElem?_eq_getElem hj]; rfl))
      rw [merge_matched buf s a pI imp h0 j hj hfc hstr]
      refine ⟨j, by simpa using hj, ?_⟩
      simp only [List.get_eq_getElem]
      rw [List.getElem_set_self]
      rw [appended_count]
      obtain ⟨i1, i2, i3, i4⟩ := hinv _ (List.get_mem buf.instances j hj)
      refine ⟨by omega, ?_⟩
      have hA := appended_slice_at (buf.instances.get ⟨j, hj⟩)
        (s.shaders.getD pI 0) s.hDescriptorSet a.buffer hstr.symm i1
        (cap_pos i2) i4
      rw [hstr] at hA
      simp only [List.get_eq_getElem] at hA
      simpa using hA

/-! ### Frame-lifecycle claims -/

theorem upload_snd_eq (l : List IInstancedItem) :
    (l.map fun inst => (uploadOne inst).snd).flatten =
      (l.filter fun g => g.count != 0).map
        fun g => ({ vb := g.vb, data := g.data } : BufferUpdate) := by
  induction l with
  | nil => rfl
  | cons g rest ih =>
    rw [List.map_cons, List.flatten_cons, ih, List.filter_cons]
    by_cases h : g.count = 0
    · simp [uploadOne, h]
    · simp [uploadOne, h]

/-- **C5**: clear zeroes every group's count and drops the dirty flag while
leaving capacities, strides, byte buffers, GPU buffers, bindings and the
group list length untouched; uploading right after a clear records zero
buffer updates. -/
theorem claim5_clear (buf : InstancedBuffer) :
    buf.clear.hasPendingModels = false ∧
    buf.clear.instances.length = buf.instances.length ∧
    (∀ g ∈ buf.clear.instances, g.count = 0) ∧
    buf.clear.instances.map (fun g => g.capacity) =
      buf.instances.map (fun g => g.capacity) ∧
    buf.clear.instances.map (fun g => g.stride) =
      buf.instances.map (fun g => g.stride) ∧
    buf.clear.instances.map (fun g => g.data) =
      buf.instances.map (fun g => g.data) ∧
    buf.clear.instances.map (fun g => g.vb) =
      buf.instances.map (fun g => g.vb) ∧
    buf.clear.instances.map (fun g => g.ia) =
      buf.instances.map (fun g => g.ia) ∧
    (buf.clear.uploadBuffers).snd = [] := by
  refine ⟨rfl, by simp [InstancedBuffer.clear], ?_, ?_, ?_, ?_, ?_, ?_, ?_⟩
  · intro g hg
    simp only [InstancedBuffer.clear, List.mem_map] at hg
    obtain ⟨g', _, rfl⟩ := hg
    rfl
  · simp [InstancedBuffer.clear, List.map_map]
  · simp [InstancedBuffer.clear, List.map_map]
  · simp [InstancedBuffer.clear, List.map_map]
  · simp [InstancedBuffer.clear, List.map_map]
  · simp [InstancedBuffer.clear, List.map_map]
  · show ((buf.clear.instances.map fun inst => (uploadOne inst).snd)).flatten = []
    rw [upload_snd_eq]
    have : buf.clear.instances.filter (fun g => g.count != 0) = [] := by
      apply List.filter_eq_nil_iff.mpr
      intro g hg
      simp only [InstancedBuffer.clear, List.mem_map] at hg
      obtain ⟨g', _, rfl⟩ := hg
      simp
    rw [this]
    rfl

/-- **C6**: uploadBuffers sets the binding instance-count of every non-empty
group to its count and records exactly one full-buffer update per non-empty
group, leaving empty groups untouched. -/
theorem claim6_upload (buf : InstancedBuffer) :
    buf.uploadBuffers.fst.instances.length = buf.instances.length ∧
    (∀ i, ∀ h : i < buf.instances.length,
      (buf.instances.get ⟨i, h⟩).count = 0 →
        buf.uploadBuffers.fst.instances[i]? =
          some (buf.instances.get ⟨i, h⟩)) ∧
    (∀ i, ∀ h : i < buf.instances.length,
      (buf.instances.get ⟨i, h⟩).count ≠ 0 →
        buf.uploadBuffers.fst.instances[i]? =
          some { buf.instances.get ⟨i, h⟩ with
            ia := { (buf.instances.get ⟨i, h⟩).ia with
              instanceCount := (buf.instances.get ⟨i, h⟩).count } }) ∧
    buf.uploadBuffers.snd =
      (buf.instances.filter fun g => g.count != 0).map
        fun g => ({ vb := g.vb, data := g.data } : BufferUpdate) := by
  refine ⟨by simp [InstancedBuffer.uploadBuffers], ?_, ?_, upload_snd_eq _⟩
  · intro i h hz
    show (buf.instances.map fun inst => (uploadOne inst).fst)[i]? = _
    rw [List.getElem?_map, List.getElem?_eq_getElem h]
    simp only [List.get_eq_getElem] at hz ⊢
    simp [uploadOne, hz]
  · intro i h hz
    show (buf.instances.map fun inst => (uploadOne inst).fst)[i]? = _
    rw [List.getElem?_map, List.getElem?_eq_getElem h]
    simp only [List.get_eq_getElem] at hz ⊢
    simp [uploadOne, hz]

/-- **C7**: when merge lands in an existing compatible group, that group's
hShader and hDescriptorSet are overwritten with the submission's resolved
handles (last-writer-wins). -/
theorem claim7_last_writer (buf : InstancedBuffer) (s : SubModel)
    (a : IInstancedAttributeBlock) (pI : Nat) (imp : Option Nat) (j : Nat)
    (hj : j < buf.instances.length)
    (h0 : ¬ a.buffer.length = 0)
    (hfc : firstCompat s.inputAssembler.indexBuffer s.lightingMap
      buf.instances = some j)
    (hstr : (buf.instances.get ⟨j, hj⟩).stride = a.buffer.length) :
    ∃ hj2 : j < (buf.merge s a pI imp).instances.length,
      ((buf.merge s a pI imp).instances.get ⟨j, hj2⟩).hShader =
        s.shaders.getD pI 0 ∧
      ((buf.merge s a pI imp).instances.get ⟨j, hj2⟩).hDescriptorSet =
        s.hDescriptorSet ∧
      ((buf.merge s a pI imp).instances.get ⟨j, hj2⟩).count =
        (buf.instances.get ⟨j, hj⟩).count + 1 := by
  rw [merge_matched buf s a pI imp h0 j hj hfc hstr]
  refine ⟨by simpa using hj, ?_⟩
  simp only [List.get_eq_getElem]
  rw [List.getElem_set_self]
  rw [appended_hShader, appended_hDescriptorSet, appended_count]
  exact ⟨rfl, rfl, rfl⟩

/-- **C8**: destroy empties the group list after releasing every group's
vertex buffer and input assembler, and a following merge of a non-empty
submission creates a fresh group with count 1 and capacity 32 exactly as on
a new aggregator. -/
theorem claim8_destroy (buf : InstancedBuffer) (s : SubModel)
    (a : IInstancedAttributeBlock) (pI : Nat) (imp : Option Nat)
    (h0 : ¬ a.buffer.length = 0) :
    buf.destroy.fst.instances = [] ∧
    buf.destroy.snd = buf.instances.map (fun g => (g.vb.id, g.ia.id)) ∧
    ∃ g, (buf.destroy.fst.merge s a pI imp).instances = [g] ∧
      g.count = 1 ∧ g.capacity = INITIAL_CAPACITY := by
  refine ⟨rfl, rfl, ?_⟩
  rw [merge_none buf.destroy.fst s a pI imp h0 rfl]
  exact ⟨newInstance buf.destroy.fst.nextId s.inputAssembler s.lightingMap
    (s.shaders.getD pI 0) s.hDescriptorSet a, rfl,
    (newInstance_fields _ _ _ _ _ _).1, (newInstance_fields _ _ _ _ _ _).2.1⟩

/-- **C9**: the optional shader-override parameter of merge is accepted but
never read — runs differing only in it produce identical aggregator state. -/
theorem claim9_implant_unused (buf : InstancedBuffer) (s : SubModel)
    (a : IInstancedAttributeBlock) (pI : Nat) (imp1 imp2 : Option Nat) :
    buf.merge s a pI imp1 = buf.merge s a pI imp2 := rfl

/-- **C10**: destroy leaves hasPendingModels and dynamicOffsets unchanged —
an aggregator dirtied since its last clear stays dirty even with an empty
group list — and only clear resets the dirty flag. -/
theorem claim10_destroy_flags (buf : InstancedBuffer) :
    buf.destroy.fst.hasPendingModels = buf.hasPendingModels ∧
    buf.destroy.fst.dynamicOffsets = buf.dynamicOffsets ∧
    (buf.hasPendingModels = true →
      buf.destroy.fst.hasPendingModels = true ∧
      buf.destroy.fst.instances = []) ∧
    buf.uploadBuffers.fst.hasPendingModels = buf.hasPendingModels ∧
    buf.clear.hasPendingModels = false :=
  ⟨rfl, rfl, fun h => ⟨h, rfl⟩, rfl, rfl⟩

/-! ### Witnesses at concrete inputs -/

theorem claim1_byte_placement_witness :
    (0 < 2 ∧ (∀ b ∈ wBlocks, b.buffer.length = 2) ∧
      wBlocks.length ≤ MAX_CAPACITY ∧ wBlocks ≠ []) ∧
    (∃ g, (mergeAll (InstancedBuffer.init 0) wSub 0 wBlocks).instances = [g] ∧
      g.count = wBlocks.length ∧ g.stride = 2 ∧
      g.data.length = 2 * g.capacity ∧
      ∀ i, ∀ hi : i < wBlocks.length,
        byteSlice g.data i 2 = (wBlocks.get ⟨i, hi⟩).buffer) :=
  ⟨⟨by decide, by decide, by decide, by decide⟩,
   claim1_byte_placement 0 wSub 0 2 wBlocks (by decide) (by decide)
     (by decide) (by decide)⟩

theorem claim2_operations_preserve_invariants_witness :
    bufInv wBuf ∧
    ((bufInv (wBuf.merge wSub wB1 0 none) ∧
      stridesPreserved wBuf (wBuf.merge wSub wB1 0 none)) ∧
     (bufInv wBuf.clear ∧ stridesPreserved wBuf wBuf.clear) ∧
     (bufInv wBuf.uploadBuffers.fst ∧
      stridesPreserved wBuf wBuf.uploadBuffers.fst) ∧
     bufInv wBuf.destroy.fst) := by
  have hinv0 : bufInv (InstancedBuffer.init 0) := fun g hg =>
    absurd hg (by simp [InstancedBuffer.init])
  have hinv : bufInv wBuf :=
    (bufInv_merge (InstancedBuffer.init 0) hinv0 wSub wB1 0 none).1
  exact ⟨hinv,
    claim2_operations_preserve_invariants wBuf hinv wSub wB1 0 none⟩

theorem claim3_partitioning_witness :
    ((wSub.inputAssembler.indexBuffer ≠ wSub2.inputAssembler.indexBuffer ∧
      mergeDest (InstancedBuffer.init 0) wSub wB1 = some 0 ∧
      mergeDest ((InstancedBuffer.init 0).merge wSub wB1 0 none) wSub2 wB1 =
        some 1) ∧
     (0 : Nat) ≠ 1) ∧
    ((∀ p ∈ [(wSub, wB1), (wSub3, wB2)],
       p.fst.inputAssembler.indexBuffer = 5 ∧ p.fst.lightingMap = 3 ∧
       p.snd.buffer.length = 2) ∧
     ∃ g, (mergeAllSubs (InstancedBuffer.init 0) 0
         [(wSub, wB1), (wSub3, wB2)]).instances = [g] ∧
       g.count = [(wSub, wB1), (wSub3, wB2)].length ∧
       ∀ i, ∀ hi : i < [(wSub, wB1), (wSub3, wB2)].length,
         byteSlice g.data i 2 =
           (([(wSub, wB1), (wSub3, wB2)].get ⟨i, hi⟩).snd).buffer) :=
  ⟨⟨⟨by decide, by decide, by decide⟩,
    claim3_partitioning.1 (InstancedBuffer.init 0) wSub wSub2 wB1 wB1 0 none
      0 1 (Or.inl (by decide)) (by decide) (by decide)⟩,
   ⟨by decide,
    claim3_partitioning.2.1 0 0 5 3 2 [(wSub, wB1), (wSub3, wB2)]
      (by decide) (by decide) (by decide) (by decide)⟩⟩

theorem claim4_noop_iff_witness :
    bufInv wBuf ∧
    totalCount (wBuf.merge wSub wB1 0 none) = totalCount wBuf + 1 := by
  have hinv0 : bufInv (InstancedBuffer.init 0) := fun g hg =>
    absurd hg (by simp [InstancedBuffer.init])
  have hinv : bufInv wBuf :=
    (bufInv_merge (InstancedBuffer.init 0) hinv0 wSub wB1 0 none).1
  have hno : ¬(wB1.buffer.length = 0 ∨
      ∃ j g, firstCompat wSub.inputAssembler.indexBuffer wSub.lightingMap
          wBuf.instances = some j ∧
        wBuf.instances[j]? = some g ∧ g.stride ≠ wB1.buffer.length) := by
    rintro (h | ⟨j, g, hfc, hget, hstr⟩)
    · exact absurd h (by decide)
    · have hj0 : j = 0 := by
        have h0 : firstCompat wSub.inputAssembler.indexBuffer wSub.lightingMap
            wBuf.instances = some 0 := by decide
        rw [h0] at hfc
        exact (Option.some_inj.mp hfc).symm
      subst hj0
      have hmap : (wBuf.instances[0]?).map (fun g => g.stride) =
          some wB1.buffer.length := by decide
      rw [hget] at hmap
      simp only [Option.map_some', Option.some_inj] at hmap
      exact hstr hmap
  exact ⟨hinv, ((claim4_noop_iff wBuf wSub wB1 0 none hinv).2 hno).1⟩

theorem claim5_clear_witness :
    wBuf.clear.hasPendingModels = false ∧
    (wBuf.clear.uploadBuffers).snd = [] :=
  ⟨(claim5_clear wBuf).1, (claim5_clear wBuf).2.2.2.2.2.2.2.2⟩

theorem claim6_upload_witness :
    wBuf.uploadBuffers.fst.instances.length = wBuf.instances.length ∧
    wBuf.uploadBuffers.snd =
      (wBuf.instances.filter fun g => g.count != 0).map
        fun g => ({ vb := g.vb, data := g.data } : BufferUpdate) :=
  ⟨(claim6_upload wBuf).1, (claim6_upload wBuf).2.2.2⟩

theorem claim7_last_writer_witness :
    ∃ hj2 : 0 < (wBuf.merge wSub3 wB1 0 none).instances.length,
      ((wBuf.merge wSub3 wB1 0 none).instances.get ⟨0, hj2⟩).hShader =
        wSub3.shaders.getD 0 0 ∧
      ((wBuf.merge wSub3 wB1 0 none).instances.get ⟨0, hj2⟩).hDescriptorSet =
        wSub3.hDescriptorSet := by
  obtain ⟨hj2, h1, h2, h3⟩ := claim7_last_writer wBuf wSub3 wB1 0 none 0
    (by decide) (by decide) (by decide) (by decide)
  exact ⟨hj2, h1, h2⟩

theorem claim8_destroy_witness :
    wBuf.destroy.fst.instances = [] ∧
    wBuf.destroy.snd = wBuf.instances.map (fun g => (g.vb.id, g.ia.id)) ∧
    ∃ g, (wBuf.destroy.fst.merge wSub wB1 0 none).instances = [g] ∧
      g.count = 1 ∧ g.capacity = INITIAL_CAPACITY :=
  claim8_destroy wBuf wSub wB1 0 none (by decide)

theorem claim10_destroy_flags_witness :
    wBuf.hasPendingModels = true ∧
    (wBuf.destroy.fst.hasPendingModels = true ∧
     wBuf.destroy.fst.instances = []) :=
  ⟨by decide, (claim10_destroy_flags wBuf).2.2.1 (by decide)⟩
